import Mathlib

/-!
Verification development for the arxiv-skills PDF-to-Markdown converter.

The definitions below are a shallow embedding of
`skills/arxiv-doc-builder/scripts/pdf_converter_lib.py` and of the
validation logic in `skills/arxiv-doc-builder/scripts/convert_pdf_extract.py`.
Python strings are modelled as `List Char`, Python `int` as `ℤ`,
fallible operations as `Except`, and the external pdfplumber page object
as a structure carrying the results of its extraction calls.
-/

set_option maxHeartbeats 1000000

deriving instance DecidableEq for Except

/-- Python strings are modelled as lists of characters. -/
abbrev Str := List Char

/-- Coerce a Lean string literal to the `List Char` model. -/
def chars (s : String) : Str := s.data

/-- Code points of the characters Python's `str.split` / `str.strip` /
`str.isspace` treat as whitespace (CPython `Py_UNICODE_ISSPACE`). -/
def pyWsCodes : List Nat :=
  [9, 10, 11, 12, 13, 28, 29, 30, 31, 32, 0x85, 0xa0, 0x1680,
   0x2000, 0x2001, 0x2002, 0x2003, 0x2004, 0x2005, 0x2006, 0x2007,
   0x2008, 0x2009, 0x200a, 0x2028, 0x2029, 0x202f, 0x205f, 0x3000]

/-- Whether a character counts as whitespace for Python string operations. -/
def pyIsSpace (c : Char) : Bool := pyWsCodes.contains c.toNat

/-- Python `str.strip()`: remove leading and trailing whitespace. -/
def pyStrip (l : Str) : Str :=
  ((l.dropWhile pyIsSpace).reverse.dropWhile pyIsSpace).reverse

/-- Python `str.split(sep)` with an explicit one-character separator:
splits at every occurrence of `sep`, keeping empty segments
(so `"".split(',') = ['']` and `"a,".split(',') = ['a','']`). -/
def pySplitOn (sep : Char) : Str → List Str
  | [] => [[]]
  | c :: cs =>
    if c = sep then [] :: pySplitOn sep cs
    else
      match pySplitOn sep cs with
      | [] => [[c]]
      | w :: ws => (c :: w) :: ws

/-- One step of the whitespace-splitting fold underlying `pySplit`. -/
def pyWordsStep (c : Char) (acc : List Str) : List Str :=
  if pyIsSpace c then [] :: acc
  else
    match acc with
    | [] => [[c]]
    | w :: ws => (c :: w) :: ws

/-- Python `str.split()` with no argument: split on runs of whitespace,
discarding empty fragments. -/
def pySplit (l : Str) : List Str :=
  (l.foldr pyWordsStep []).filter (fun w => !w.isEmpty)

/-- Python `sep.join(parts)`. -/
def pyJoin (sep : Str) : List Str → Str
  | [] => []
  | [w] => w
  | w :: ws => w ++ sep ++ pyJoin sep ws

/-- Python `str.replace(pat, rep)` for a one-character pattern: every
occurrence of `pat` is replaced by `rep`. -/
def pyReplaceChar (pat : Char) (rep : Str) (l : Str) : Str :=
  l.flatMap (fun c => if c = pat then rep else [c])

/-- The three ligature `replace` calls of `clean_text`, in source order:
fi first, then fl, then ff. -/
def expandLigs (l : Str) : Str :=
  pyReplaceChar 'ﬀ' (chars "ff")
    (pyReplaceChar 'ﬂ' (chars "fl")
      (pyReplaceChar 'ﬁ' (chars "fi") l))

/-- `clean_text` from `pdf_converter_lib.py`: collapse whitespace runs to
single spaces via `' '.join(text.split())`, then expand the ligature
characters fi, fl, ff. -/
def clean_text (l : Str) : Str :=
  if l.isEmpty then [] else expandLigs (pyJoin [' '] (pySplit l))

/-- Decimal digits of a natural number, as the model of Python `str(n)`. -/
def natChars (n : ℕ) : Str := (Nat.repr n).data

/-- Decimal rendering of an integer, as the model of Python `str(i)`. -/
def intChars (i : ℤ) : Str :=
  if i < 0 then '-' :: natChars i.natAbs else natChars i.toNat

/-- The single error kind raised by the parsing helpers
(Python `ValueError`, called `ParseError` in the specification). -/
inductive ParseErr where
  | valueError : ParseErr
deriving DecidableEq, Repr

/-- Value of an ASCII digit character, if it is one. -/
def digitVal (c : Char) : Option ℕ :=
  if '0' ≤ c ∧ c ≤ '9' then some (c.toNat - 48) else none

/-- Value of a non-empty all-digit string, reading left to right. -/
def digitsVal : Str → Option ℕ
  | [] => none
  | [c] => digitVal c
  | c :: cs =>
    match digitVal c, digitsVal cs with
    | some d, some v => some (d * 10 ^ cs.length + v)
    | _, _ => none

/-- Python `int(s)` on the strings this program can produce: strip
whitespace, allow one optional sign, then require a non-empty run of
ASCII digits; anything else raises `ValueError`. -/
def pyInt (s : Str) : Except ParseErr ℤ :=
  match pyStrip s with
  | [] => .error .valueError
  | c :: rest =>
    if c = '+' then
      match digitsVal rest with
      | some v => .ok (v : ℤ)
      | none => .error .valueError
    else if c = '-' then
      match digitsVal rest with
      | some v => .ok (-(v : ℤ))
      | none => .error .valueError
    else
      match digitsVal (c :: rest) with
      | some v => .ok (v : ℤ)
      | none => .error .valueError

/-- One comma-separated token of `parse_page_ranges`: either a single
number, or `start-end` which is unpacked from `part.split('-')` (raising
`ValueError` unless that yields exactly two pieces) and contributes
`range(int(start), int(end) + 1)`, i.e. the inclusive range. -/
def parseToken (part : Str) : Except ParseErr (Finset ℤ) :=
  if part.contains '-' then
    match pySplitOn '-' part with
    | [a, b] =>
      match pyInt a with
      | .error e => .error e
      | .ok x =>
        match pyInt b with
        | .error e => .error e
        | .ok y => .ok (Finset.Icc x y)
    | _ => .error .valueError
  else
    match pyInt part with
    | .error e => .error e
    | .ok x => .ok {x}

/-- The accumulation loop of `parse_page_ranges` over the comma-split
parts: each part is stripped, parsed, and its pages added to the set. -/
def parseParts : List Str → Finset ℤ → Except ParseErr (Finset ℤ)
  | [], acc => .ok acc
  | p :: ps, acc =>
    match parseToken (pyStrip p) with
    | .error e => .error e
    | .ok s => parseParts ps (acc ∪ s)

/-- `parse_page_ranges` from `pdf_converter_lib.py`: `None` or the empty
string yield the empty set (`if not range_str`), otherwise the string is
split on commas and each token parsed. -/
def parse_page_ranges : Option Str → Except ParseErr (Finset ℤ)
  | none => .ok ∅
  | some s => if s.isEmpty then .ok ∅ else parseParts (pySplitOn ',' s) ∅

/-- A malformed token in the sense of the specification: a dash-free
token that is not a numeral, or a dashed token that does not split into
exactly two pieces, or whose pieces (e.g. a missing bound) are not
numerals. -/
def badToken (t : Str) : Bool :=
  if t.contains '-' then
    match pySplitOn '-' t with
    | [u, v] =>
      (match pyInt u with | .error _ => true | .ok _ => false) ||
      (match pyInt v with | .error _ => true | .ok _ => false)
    | _ => true
  else
    match pyInt t with | .error _ => true | .ok _ => false

/-- Python `pat in text`: `pat` occurs as a contiguous substring. -/
def pyInStr (pat : Str) : Str → Bool
  | [] => pat.isEmpty
  | c :: cs => pat.isPrefixOf (c :: cs) || pyInStr pat cs

/-- Python `text.upper()` restricted to the ASCII range, which covers the
header keywords the classifier compares against. -/
def pyUpper (l : Str) : Str := l.map Char.toUpper

/-- `is_likely_header` from `pdf_converter_lib.py`: a non-empty line
containing (case-insensitively) one of the journal boilerplate markers. -/
def is_likely_header (t : Str) : Bool :=
  if t.isEmpty then false
  else
    pyInStr (chars "PHYSICAL REVIEW") (pyUpper t) ||
    pyInStr (chars "VOLUME") (pyUpper t) ||
    pyInStr (chars "NUMBER") (pyUpper t)

/-- ASCII digit test, for the `str.isdigit()` footer check. -/
def isAsciiDigit (c : Char) : Bool := '0' ≤ c && c ≤ '9'

/-- Python `s.isdigit()`: non-empty and all digits. -/
def pyIsDigitStr (t : Str) : Bool := !t.isEmpty && t.all isAsciiDigit

/-- `is_likely_footer` from `pdf_converter_lib.py`: a non-empty line that
is a bare page number after stripping, or contains copyright markers. -/
def is_likely_footer (t : Str) : Bool :=
  if t.isEmpty then false
  else if pyIsDigitStr (pyStrip t) then true
  else
    pyInStr (chars "The American Physical Society") t ||
    pyInStr (chars "©") t ||
    pyInStr (chars "Copyright") t

/-- The shared line-filtering loop of `extract_column_text` and of the
single-column branch of `extract_page_content`: suppress likely headers
among the first three lines and likely footers among the last three
(`i >= len(lines) - 3` over Python ints), clean each surviving line, and
drop lines that clean to nothing. -/
def processLines (lines : List Str) : List Str :=
  lines.enum.filterMap (fun il =>
    if il.1 < 3 && is_likely_header il.2 then none
    else if decide ((il.1 : ℤ) ≥ (lines.length : ℤ) - 3) && is_likely_footer il.2 then none
    else
      let c := clean_text il.2
      if c.isEmpty then none else some c)

/-- Split a page's text into lines, filter them, and join the survivors
with a blank line between them (`'\n\n'.join(cleaned_lines)`). -/
def proseContent (t : Str) : Str :=
  pyJoin (chars "\n\n") (processLines (pySplitOn '\n' t))

/-- `extract_column_text` from `pdf_converter_lib.py`, applied to the
result of `page_or_crop.extract_text()` (which may be `None`): empty or
absent text yields the empty string, otherwise the filtered prose. -/
def extract_column_text (ot : Option Str) : Str :=
  match ot with
  | none => []
  | some t => if t.isEmpty then [] else proseContent t

/-- A pdfplumber table: rows of cells, a cell being a string or `None`. -/
abbrev PdfTable := List (List (Option Str))

/-- The model of a pdfplumber page as this program consumes it: the
results of `page.extract_text()` on the full page and on the two
half-width crops, and of `page.extract_tables()`. Each call may raise
(`Except.error` carries the exception's description) or return no text
(`none`). -/
structure Page where
  text : Except Str (Option Str)
  leftText : Except Str (Option Str)
  rightText : Except Str (Option Str)
  tables : Except Str (List PdfTable)

/-- Cell rendering in the table loop: `str(cell) if cell else ""`, so an
absent (`None`) or empty cell becomes the empty string. -/
def renderCellStr (cell : Option Str) : Str :=
  match cell with
  | none => []
  | some s => s

/-- One Markdown pipe-table row: `"| " + " | ".join(cells) + " |\n"`. -/
def renderRow (row : List (Option Str)) : Str :=
  chars "| " ++ pyJoin (chars " | ") (row.map renderCellStr) ++ chars " |\n"

/-- The header separator row: `"|" + "|".join(["---"] * len(header)) + "|\n"`. -/
def sepRow (k : ℕ) : Str :=
  chars "|" ++ pyJoin (chars "|") (List.replicate k (chars "---")) ++ chars "|\n"

/-- One table's Markdown block: the `**Table j+1:**` caption, then (for a
non-empty table) the first row as header, the separator row, and the
remaining rows, closed by a blank line. -/
def renderTable (j : ℕ) (table : PdfTable) : Str :=
  chars "**Table " ++ natChars (j + 1) ++ chars ":**\n\n" ++
  (match table with
   | [] => []
   | hd :: tl =>
     renderRow hd ++ sepRow hd.length ++ (tl.map renderRow).flatten ++ chars "\n")

/-- The whole `table_content` accumulator: a leading blank line followed
by every detected table's block, in order. -/
def tablesBlock (ts : List PdfTable) : Str :=
  chars "\n\n" ++ (ts.enum.map (fun jt => renderTable jt.1 jt.2)).flatten

/-- `extract_page_content` from `pdf_converter_lib.py`. In double-column
mode the two half-page crops are extracted (left first, as in the
source) and combined with a blank line between non-empty halves; with
both halves empty a placeholder comment is produced. In single-column
mode missing text produces the placeholder, otherwise the filtered prose
followed, when `page.extract_tables()` is non-empty, by the table
blocks. An error from any underlying call propagates. -/
def extract_page_content (page : Page) (page_num : ℕ) (is_double_column : Bool) :
    Except Str Str :=
  if is_double_column then
    match page.leftText with
    | .error e => .error e
    | .ok lt =>
      let left_text := extract_column_text lt
      match page.rightText with
      | .error e => .error e
      | .ok rt =>
        let right_text := extract_column_text rt
        if left_text.isEmpty && right_text.isEmpty then
          .ok (chars "\n<!-- Page " ++ natChars page_num ++ chars ": No text extracted -->\n")
        else
          let content := if !left_text.isEmpty then left_text else []
          let content :=
            if !right_text.isEmpty then
              (if !content.isEmpty then content ++ chars "\n\n" else content) ++ right_text
            else content
          .ok content
  else
    match page.text with
    | .error e => .error e
    | .ok none =>
      .ok (chars "\n<!-- Page " ++ natChars page_num ++ chars ": No text extracted -->\n")
    | .ok (some t) =>
      if t.isEmpty then
        .ok (chars "\n<!-- Page " ++ natChars page_num ++ chars ": No text extracted -->\n")
      else
        match page.tables with
        | .error e => .error e
        | .ok ts =>
          if ts.isEmpty then .ok (proseContent t)
          else .ok (proseContent t ++ tablesBlock ts)

/-- The PDF metadata fields `extract_metadata` produces (title, author,
subject, creator), passed into the assembler's header. -/
structure Meta where
  title : Str
  author : Str
  subject : Str
  creator : Str

/-- Python truthiness of the optional `pages_to_extract` argument:
`None` and the empty set are falsy, a non-empty set is truthy. -/
def pteTruthy : Option (Finset ℤ) → Bool
  | none => false
  | some s => if s = ∅ then false else true

/-- The `page_info` field of the metadata header:
`f"{len(pages_to_extract)} pages" if pages_to_extract else f"{total_pages} pages"`. -/
def pageInfo (pte : Option (Finset ℤ)) (total : ℕ) : Str :=
  if pteTruthy pte then natChars (pte.getD ∅).card ++ chars " pages"
  else natChars total ++ chars " pages"

/-- The metadata header block prepended to the document. -/
def headerBlock (meta : Meta) (pdfName : Str) (pte : Option (Finset ℤ)) (total : ℕ) : Str :=
  chars "# " ++ meta.title ++
  chars "\n\n**Author:** " ++ meta.author ++
  chars "\n\n**Source:** `" ++ pdfName ++
  chars "`\n\n**Converted:** PDF to Markdown using pdfplumber\n\n**Pages:** " ++
  pageInfo pte total ++ chars "\n\n---\n\n"

/-- The parts the per-page loop body appends for one page: on success a
page-marker comment (tagged `(double-column)` when the page is in the
double-column set) followed by the extracted content, on an extraction
error a single error-placeholder comment carrying the description. -/
def pageParts (dcp : Finset ℤ) (i : ℕ) (page : Page) : List Str :=
  let isDc : Bool := decide ((i : ℤ) ∈ dcp)
  let colInfo := if isDc then chars " (double-column)" else []
  match extract_page_content page i isDc with
  | .ok c => [chars "\n\n<!-- Page " ++ natChars i ++ colInfo ++ chars " -->\n\n", c]
  | .error e => [chars "\n\n<!-- Page " ++ natChars i ++ chars ": Error - " ++ e ++ chars " -->\n\n"]

/-- The loop's skip test:
`if pages_to_extract and i not in pages_to_extract: continue`. -/
def skipPage (pte : Option (Finset ℤ)) (i : ℕ) : Bool :=
  pteTruthy pte && decide ((i : ℤ) ∉ pte.getD ∅)

/-- The `markdown_parts` list built by `convert_pdf_to_markdown`: the
metadata header, then for every page of the PDF in order (`enumerate`
starting at 1) either nothing (skipped) or that page's parts. -/
def markdown_parts (pages : List Page) (pdfName : Str) (meta : Meta)
    (pte : Option (Finset ℤ)) (dcp : Option (Finset ℤ)) : List Str :=
  headerBlock meta pdfName pte pages.length ::
    ((pages.enumFrom 1).map (fun ip =>
      if skipPage pte ip.1 then [] else pageParts (dcp.getD ∅) ip.1 ip.2)).flatten

/-- The fixed closing notes section. -/
def notesBlock : Str :=
  chars "\n\n---\n\n## Notes\n\n- This document was converted from PDF using pdfplumber\n- Mathematical formulas are preserved from the PDF text layer\n- Some formatting may require manual adjustment\n- Complex equations may need to be formatted as LaTeX\n- Please review and verify the content accuracy\n\n"

/-- `convert_pdf_to_markdown` from `pdf_converter_lib.py`, modelled as
the full Markdown text written to the output file: the joined parts
followed by the notes section. -/
def convert_pdf_to_markdown (pages : List Page) (pdfName : Str) (meta : Meta)
    (pte : Option (Finset ℤ)) (dcp : Option (Finset ℤ)) : Str :=
  (markdown_parts pages pdfName meta pte dcp).flatten ++ notesBlock

/-- Recognizer for the page-marker comments the assembler emits: parts
beginning with the marker prefix `\n\n<!-- Page `. -/
def isPageComment (p : Str) : Bool :=
  (chars "\n\n<!-- Page ").isPrefixOf p

/-- Outcome of running `convert_pdf_extract.py`'s `main`: an explicit
`sys.exit(code)` with the printed lines, an uncaught parse exception, or
a completed conversion carrying the written Markdown. -/
inductive MainResult where
  | exited (code : ℤ) (lines : List Str)
  | raised (e : ParseErr)
  | converted (markdown : Str)
deriving DecidableEq

/-- Python `str(sorted(s))` formatting of an integer list, e.g. `[4, 5]`. -/
def pyIntListRepr (l : List ℤ) : Str :=
  chars "[" ++ pyJoin (chars ", ") (l.map intChars) ++ chars "]"

/-- Python `sorted` of a set of integers: ascending list. -/
def sortedList (s : Finset ℤ) : List ℤ := s.sort (· ≤ ·)

namespace ConvertPdfExtract

/-- `main` from `convert_pdf_extract.py`: check the PDF exists, parse
`--pages` and (when given and non-empty) `--double-column-pages`,
reject a double-column set containing pages outside the extraction set
with exit code 1 and the four printed error lines, and otherwise run the
conversion. -/
def main (pdfExists : Bool) (pagesArg : Str) (dcArg : Option Str)
    (pages : List Page) (pdfName : Str) (meta : Meta) : MainResult :=
  if !pdfExists then
    .exited 1 [chars "Error: PDF file not found: " ++ pdfName]
  else
    match parse_page_ranges (some pagesArg) with
    | .error e => .raised e
    | .ok pagesToExtract =>
      match (match dcArg with
             | none => Except.ok (∅ : Finset ℤ)
             | some ds => if ds.isEmpty then Except.ok (∅ : Finset ℤ)
                          else parse_page_ranges (some ds)) with
      | .error e => .raised e
      | .ok dcPages =>
        if dcPages ≠ ∅ ∧ dcPages \ pagesToExtract ≠ ∅ then
          .exited 1
            [chars "Error: --double-column-pages contains pages not in --pages: " ++
               pyIntListRepr (sortedList (dcPages \ pagesToExtract)),
             chars "  Pages to extract: " ++ pyIntListRepr (sortedList pagesToExtract),
             chars "  Double-column pages: " ++ pyIntListRepr (sortedList dcPages),
             chars "  Invalid pages: " ++ pyIntListRepr (sortedList (dcPages \ pagesToExtract))]
        else
          .converted (convert_pdf_to_markdown pages pdfName meta
            (some pagesToExtract) (some dcPages))

end ConvertPdfExtract

/-! ### Lemmas about the whitespace splitter and joiner -/

theorem pyIsSpace_space : pyIsSpace ' ' = true := by decide

theorem foldr_words_nonspace (l : Str) :
    ∀ w ∈ l.foldr pyWordsStep [], ∀ c ∈ w, pyIsSpace c = false := by
  induction l with
  | nil => intro w hw; simp at hw
  | cons a t ih =>
    intro w hw c hc
    simp only [List.foldr_cons] at hw
    cases ha : pyIsSpace a with
    | true =>
      rw [show pyWordsStep a (t.foldr pyWordsStep []) = [] :: t.foldr pyWordsStep []
            from by simp [pyWordsStep, ha]] at hw
      rcases List.mem_cons.mp hw with h | h
      · subst h; simp at hc
      · exact ih w h c hc
    | false =>
      cases hfold : t.foldr pyWordsStep [] with
      | nil =>
        rw [hfold] at hw
        rw [show pyWordsStep a [] = [[a]] from by simp [pyWordsStep, ha]] at hw
        rcases List.mem_singleton.mp hw with rfl
        rcases List.mem_singleton.mp hc with rfl
        exact ha
      | cons w0 ws =>
        rw [hfold] at hw
        rw [show pyWordsStep a (w0 :: ws) = (a :: w0) :: ws
              from by simp [pyWordsStep, ha]] at hw
        rcases List.mem_cons.mp hw with h | h
        · subst h
          rcases List.mem_cons.mp hc with rfl | hcw
          · exact ha
          · exact ih w0 (by rw [hfold]; exact List.mem_cons_self _ _) c hcw
        · exact ih w (by rw [hfold]; exact List.mem_cons_of_mem _ h) c hc

theorem pySplit_words (l : Str) :
    ∀ w ∈ pySplit l, w ≠ [] ∧ ∀ c ∈ w, pyIsSpace c = false := by
  intro w hw
  unfold pySplit at hw
  rw [List.mem_filter] at hw
  refine ⟨?_, foldr_words_nonspace l w hw.1⟩
  have := hw.2
  simpa [List.isEmpty_iff] using this

theorem foldr_words_acc (w : Str) (hns : ∀ c ∈ w, pyIsSpace c = false) :
    ∀ acc : List Str,
      w.foldr pyWordsStep acc =
        if w.isEmpty then acc
        else
          match acc with
          | [] => [w]
          | a :: as => (w ++ a) :: as := by
  induction w with
  | nil => intro acc; simp
  | cons c cs ih =>
    intro acc
    have hc : pyIsSpace c = false := hns c (List.mem_cons_self _ _)
    have hcs : ∀ c' ∈ cs, pyIsSpace c' = false :=
      fun c' h => hns c' (List.mem_cons_of_mem _ h)
    simp only [List.foldr_cons, ih hcs acc]
    cases cs with
    | nil => cases acc with
      | nil => simp [pyWordsStep, hc]
      | cons a as => simp [pyWordsStep, hc]
    | cons d ds => cases acc with
      | nil => simp [pyWordsStep, hc]
      | cons a as => simp [pyWordsStep, hc]

theorem pySplit_join (ws : List Str)
    (h : ∀ w ∈ ws, w ≠ [] ∧ ∀ c ∈ w, pyIsSpace c = false) :
    pySplit (pyJoin [' '] ws) = ws := by
  induction ws with
  | nil => rfl
  | cons w ws ih =>
    have hw := h w (List.mem_cons_self _ _)
    have hbw : (!w.isEmpty) = true := by simpa [List.isEmpty_iff] using hw.1
    have hwe : w.isEmpty = false := by simpa [List.isEmpty_iff] using hw.1
    have hws : ∀ u ∈ ws, u ≠ [] ∧ ∀ c ∈ u, pyIsSpace c = false :=
      fun u hu => h u (List.mem_cons_of_mem _ hu)
    cases ws with
    | nil =>
      show pySplit (pyJoin [' '] [w]) = [w]
      unfold pySplit
      rw [show pyJoin [' '] [w] = w from rfl]
      rw [foldr_words_acc w hw.2 [], hwe]
      simp [List.filter_cons, hbw]
    | cons v vs =>
      have hjoin : pyJoin [' '] (w :: v :: vs) = w ++ (' ' :: pyJoin [' '] (v :: vs)) := by
        show w ++ [' '] ++ pyJoin [' '] (v :: vs) = _
        rw [List.append_assoc]; rfl
      unfold pySplit
      rw [hjoin, List.foldr_append]
      have hstep : (' ' :: pyJoin [' '] (v :: vs)).foldr pyWordsStep []
          = [] :: (pyJoin [' '] (v :: vs)).foldr pyWordsStep [] := by
        simp only [List.foldr_cons]
        simp [pyWordsStep, pyIsSpace_space]
      rw [hstep, foldr_words_acc w hw.2, hwe]
      simp only [if_false, Bool.false_eq_true]
      rw [List.append_nil]
      rw [List.filter_cons]
      simp only [hbw, if_true]
      unfold pySplit at ih
      rw [ih hws]

/-! ### Lemmas about `pyJoin` and `pyReplaceChar` -/

theorem pyJoin_cons₂ (sep : Str) (w v : Str) (vs : List Str) :
    pyJoin sep (w :: v :: vs) = w ++ sep ++ pyJoin sep (v :: vs) := rfl

theorem pyJoin_ne_nil (sep : Str) (ws : List Str)
    (hne : ws ≠ []) (h : ∀ w ∈ ws, w ≠ []) : pyJoin sep ws ≠ [] := by
  cases ws with
  | nil => exact absurd rfl hne
  | cons w ws =>
    cases ws with
    | nil => exact h w (List.mem_cons_self _ _)
    | cons v vs =>
      rw [pyJoin_cons₂]
      intro habs
      rcases List.append_eq_nil.mp habs with ⟨h1, -⟩
      rcases List.append_eq_nil.mp h1 with ⟨h2, -⟩
      exact h w (List.mem_cons_self _ _) h2

theorem pyJoin_head? (sep : Str) (w : Str) (ws : List Str) (hw : w ≠ []) :
    (pyJoin sep (w :: ws)).head? = w.head? := by
  cases ws with
  | nil => rfl
  | cons v vs =>
    rw [pyJoin_cons₂, List.append_assoc]
    cases w with
    | nil => exact absurd rfl hw
    | cons c cs => rfl

theorem pyJoin_getLast? (sep : Str) (ws : List Str)
    (h : ∀ w ∈ ws, w ≠ []) (hne : ws ≠ []) :
    ∃ w ∈ ws, (pyJoin sep ws).getLast? = w.getLast? := by
  induction ws with
  | nil => exact absurd rfl hne
  | cons w ws ih =>
    cases ws with
    | nil => exact ⟨w, List.mem_cons_self _ _, rfl⟩
    | cons v vs =>
      have hws : ∀ u ∈ v :: vs, u ≠ [] := fun u hu => h u (List.mem_cons_of_mem _ hu)
      obtain ⟨u, hu, hlast⟩ := ih hws (by simp)
      refine ⟨u, List.mem_cons_of_mem _ hu, ?_⟩
      rw [pyJoin_cons₂, List.append_assoc]
      rw [List.getLast?_append_of_ne_nil]
      · rw [← hlast]
        rw [List.getLast?_append_of_ne_nil]
        exact pyJoin_ne_nil sep (v :: vs) (by simp) hws
      · intro habs
        rcases List.append_eq_nil.mp habs with ⟨-, h2⟩
        exact pyJoin_ne_nil sep (v :: vs) (by simp) hws h2

theorem pyReplaceChar_cons (pat : Char) (rep : Str) (c : Char) (cs : Str) :
    pyReplaceChar pat rep (c :: cs) =
      (if c = pat then rep else [c]) ++ pyReplaceChar pat rep cs := by
  simp [pyReplaceChar]

theorem pyReplaceChar_append (pat : Char) (rep : Str) (a b : Str) :
    pyReplaceChar pat rep (a ++ b) = pyReplaceChar pat rep a ++ pyReplaceChar pat rep b := by
  simp [pyReplaceChar]

theorem pyReplaceChar_join (pat : Char) (rep : Str) (sep : Str) (ws : List Str) :
    pyReplaceChar pat rep (pyJoin sep ws) =
      pyJoin (pyReplaceChar pat rep sep) (ws.map (pyReplaceChar pat rep)) := by
  induction ws with
  | nil => rfl
  | cons w ws ih =>
    cases ws with
    | nil => rfl
    | cons v vs =>
      rw [pyJoin_cons₂, pyReplaceChar_append, pyReplaceChar_append, ih]
      rfl

theorem pyReplaceChar_of_not_mem (pat : Char) (rep : Str) (l : Str) (h : pat ∉ l) :
    pyReplaceChar pat rep l = l := by
  induction l with
  | nil => rfl
  | cons c cs ih =>
    have hc : c ≠ pat := fun e => h (e ▸ List.mem_cons_self _ _)
    rw [pyReplaceChar_cons, if_neg hc, ih (fun hm => h (List.mem_cons_of_mem _ hm))]
    rfl

theorem mem_pyReplaceChar (pat : Char) (rep : Str) (l : Str) (c : Char)
    (h : c ∈ pyReplaceChar pat rep l) : c ∈ rep ∨ (c ∈ l ∧ c ≠ pat) := by
  induction l with
  | nil => simp [pyReplaceChar] at h
  | cons a as ih =>
    rw [pyReplaceChar_cons] at h
    rcases List.mem_append.mp h with h1 | h1
    · by_cases ha : a = pat
      · rw [if_pos ha] at h1; exact Or.inl h1
      · rw [if_neg ha] at h1
        rcases List.mem_singleton.mp h1 with rfl
        exact Or.inr ⟨List.mem_cons_self _ _, ha⟩
    · rcases ih h1 with h2 | ⟨h2, h3⟩
      · exact Or.inl h2
      · exact Or.inr ⟨List.mem_cons_of_mem _ h2, h3⟩

theorem pyReplaceChar_ne_nil (pat : Char) (rep : Str) (l : Str)
    (hrep : rep ≠ []) (hl : l ≠ []) : pyReplaceChar pat rep l ≠ [] := by
  cases l with
  | nil => exact absurd rfl hl
  | cons c cs =>
    rw [pyReplaceChar_cons]
    intro habs
    rcases List.append_eq_nil.mp habs with ⟨h1, -⟩
    by_cases hc : c = pat
    · rw [if_pos hc] at h1; exact hrep h1
    · rw [if_neg hc] at h1; exact List.cons_ne_nil _ _ h1

/-! ### Lemmas about `expandLigs` and `clean_text` -/

theorem expandLigs_sep : expandLigs [' '] = [' '] := by decide

theorem expandLigs_ne_nil (l : Str) (hl : l ≠ []) : expandLigs l ≠ [] := by
  unfold expandLigs
  exact pyReplaceChar_ne_nil _ _ _ (by decide)
    (pyReplaceChar_ne_nil _ _ _ (by decide)
      (pyReplaceChar_ne_nil _ _ _ (by decide) hl))

theorem expandLigs_nonspace (l : Str) (h : ∀ c ∈ l, pyIsSpace c = false) :
    ∀ c ∈ expandLigs l, pyIsSpace c = false := by
  intro c hc
  unfold expandLigs at hc
  rcases mem_pyReplaceChar _ _ _ _ hc with h1 | ⟨h1, -⟩
  · exact (by decide : ∀ c ∈ chars "ff", pyIsSpace c = false) c h1
  rcases mem_pyReplaceChar _ _ _ _ h1 with h2 | ⟨h2, -⟩
  · exact (by decide : ∀ c ∈ chars "fl", pyIsSpace c = false) c h2
  rcases mem_pyReplaceChar _ _ _ _ h2 with h3 | ⟨h3, -⟩
  · exact (by decide : ∀ c ∈ chars "fi", pyIsSpace c = false) c h3
  exact h c h3

theorem expandLigs_no_lig (l : Str) :
    ∀ c ∈ expandLigs l, c ≠ 'ﬁ' ∧ c ≠ 'ﬂ' ∧ c ≠ 'ﬀ' := by
  intro c hc
  unfold expandLigs at hc
  rcases mem_pyReplaceChar _ _ _ _ hc with h1 | ⟨h1, hne3⟩
  · exact (by decide : ∀ c ∈ chars "ff", c ≠ 'ﬁ' ∧ c ≠ 'ﬂ' ∧ c ≠ 'ﬀ') c h1
  rcases mem_pyReplaceChar _ _ _ _ h1 with h2 | ⟨h2, hne2⟩
  · exact (by decide : ∀ c ∈ chars "fl", c ≠ 'ﬁ' ∧ c ≠ 'ﬂ' ∧ c ≠ 'ﬀ') c h2
  rcases mem_pyReplaceChar _ _ _ _ h2 with h3 | ⟨-, hne1⟩
  · exact (by decide : ∀ c ∈ chars "fi", c ≠ 'ﬁ' ∧ c ≠ 'ﬂ' ∧ c ≠ 'ﬀ') c h3
  exact ⟨hne1, hne2, hne3⟩

theorem expandLigs_of_no_lig (l : Str)
    (h : ∀ c ∈ l, c ≠ 'ﬁ' ∧ c ≠ 'ﬂ' ∧ c ≠ 'ﬀ') : expandLigs l = l := by
  unfold expandLigs
  rw [pyReplaceChar_of_not_mem 'ﬁ' _ l (fun hm => (h _ hm).1 rfl)]
  rw [pyReplaceChar_of_not_mem 'ﬂ' _ l (fun hm => (h _ hm).2.1 rfl)]
  rw [pyReplaceChar_of_not_mem 'ﬀ' _ l (fun hm => (h _ hm).2.2 rfl)]

theorem expandLigs_join (ws : List Str) :
    expandLigs (pyJoin [' '] ws) = pyJoin [' '] (ws.map expandLigs) := by
  unfold expandLigs
  rw [pyReplaceChar_join 'ﬁ' (chars "fi") [' '] ws,
      show pyReplaceChar 'ﬁ' (chars "fi") [' '] = [' '] from by decide,
      pyReplaceChar_join 'ﬂ' (chars "fl") [' '],
      show pyReplaceChar 'ﬂ' (chars "fl") [' '] = [' '] from by decide,
      pyReplaceChar_join 'ﬀ' (chars "ff") [' '],
      show pyReplaceChar 'ﬀ' (chars "ff") [' '] = [' '] from by decide,
      List.map_map, List.map_map]
  rfl

/-- A word as produced by one pass of `clean_text`: non-empty, free of
whitespace, and free of the three ligature characters. -/
def CleanWord (w : Str) : Prop :=
  w ≠ [] ∧ (∀ c ∈ w, pyIsSpace c = false) ∧ (∀ c ∈ w, c ≠ 'ﬁ' ∧ c ≠ 'ﬂ' ∧ c ≠ 'ﬀ')

theorem clean_text_structure (l : Str) :
    clean_text l = [] ∨
      ∃ ws : List Str, ws ≠ [] ∧ (∀ w ∈ ws, CleanWord w) ∧
        clean_text l = pyJoin [' '] ws := by
  by_cases hl : l.isEmpty
  · left; simp [clean_text, hl]
  · cases hsplit : pySplit l with
    | nil =>
      left
      rw [clean_text, if_neg hl, hsplit]
      decide
    | cons w ws =>
      right
      refine ⟨(w :: ws).map expandLigs, by simp, ?_, ?_⟩
      · intro u hu
        rcases List.mem_map.mp hu with ⟨v, hv, rfl⟩
        have hv' := pySplit_words l v (hsplit ▸ hv)
        exact ⟨expandLigs_ne_nil v hv'.1, expandLigs_nonspace v hv'.2,
          expandLigs_no_lig v⟩
      · rw [clean_text, if_neg hl, hsplit, expandLigs_join]

theorem clean_text_nil : clean_text [] = [] := rfl

theorem clean_text_of_clean_words (ws : List Str) (hne : ws ≠ [])
    (h : ∀ w ∈ ws, CleanWord w) :
    clean_text (pyJoin [' '] ws) = pyJoin [' '] ws := by
  have hjne : pyJoin [' '] ws ≠ [] := pyJoin_ne_nil _ _ hne (fun w hw => (h w hw).1)
  rw [clean_text, if_neg (by simpa [List.isEmpty_iff] using hjne)]
  rw [pySplit_join ws (fun w hw => ⟨(h w hw).1, (h w hw).2.1⟩)]
  rw [expandLigs_join]
  congr 1
  have : ∀ w ∈ ws, expandLigs w = w := fun w hw => expandLigs_of_no_lig w (h w hw).2.2
  calc ws.map expandLigs = ws.map id := List.map_congr_left this
    _ = ws := List.map_id ws

theorem clean_text_head?_nonspace (l : Str) :
    ∀ c, (clean_text l).head? = some c → pyIsSpace c = false := by
  intro c hc
  rcases clean_text_structure l with h | ⟨ws, hne, hws, heq⟩
  · rw [h] at hc; simp at hc
  · rw [heq] at hc
    cases ws with
    | nil => exact absurd rfl hne
    | cons w ws' =>
      rw [pyJoin_head? [' '] w ws' (hws w (List.mem_cons_self _ _)).1] at hc
      have hcw : c ∈ w := List.mem_of_mem_head? hc
      exact (hws w (List.mem_cons_self _ _)).2.1 c hcw

theorem clean_text_getLast?_nonspace (l : Str) :
    ∀ c, (clean_text l).getLast? = some c → pyIsSpace c = false := by
  intro c hc
  rcases clean_text_structure l with h | ⟨ws, hne, hws, heq⟩
  · rw [h] at hc; simp at hc
  · rw [heq] at hc
    obtain ⟨u, hu, hlast⟩ :=
      pyJoin_getLast? [' '] ws (fun w hw => (hws w hw).1) hne
    rw [hlast] at hc
    have hcu : c ∈ u := List.mem_of_mem_getLast? hc
    exact (hws u hu).2.1 c hcu

theorem clean_text_ne_nil_head (l : Str) (h : clean_text l ≠ []) :
    ∃ c, (clean_text l).head? = some c ∧ pyIsSpace c = false := by
  cases hc : (clean_text l).head? with
  | none => exact absurd (List.head?_eq_none_iff.mp hc) h
  | some c => exact ⟨c, rfl, clean_text_head?_nonspace l c hc⟩

/-- C5: for every text input, `clean_text` is idempotent:
`clean_text (clean_text x) = clean_text x`. -/
theorem c5_clean_text_idempotent (l : Str) :
    clean_text (clean_text l) = clean_text l := by
  rcases clean_text_structure l with h | ⟨ws, hne, hws, heq⟩
  · rw [h]; exact clean_text_nil
  · rw [heq]; exact clean_text_of_clean_words ws hne hws

/-- C10: the string returned by `clean_text` never begins or ends with
whitespace: its first and last characters, when they exist, are
non-whitespace. -/
theorem c10_clean_text_no_edge_whitespace (l : Str) :
    (∀ c, (clean_text l).head? = some c → pyIsSpace c = false) ∧
    (∀ c, (clean_text l).getLast? = some c → pyIsSpace c = false) :=
  ⟨clean_text_head?_nonspace l, clean_text_getLast?_nonspace l⟩

/-- Witness for C10 at the concrete input `"  hi  "`, whose cleaning is
`"hi"`: the edge characters are non-whitespace. -/
theorem c10_witness : pyIsSpace 'h' = false ∧ pyIsSpace 'i' = false :=
  ⟨(c10_clean_text_no_edge_whitespace (chars "  hi  ")).1 'h' (by decide),
   (c10_clean_text_no_edge_whitespace (chars "  hi  ")).2 'i' (by decide)⟩

/-! ### Lemmas about the page-range parser -/

theorem mem_pyStrip (l : Str) (c : Char) (h : c ∈ pyStrip l) : c ∈ l := by
  unfold pyStrip at h
  rw [List.mem_reverse] at h
  have h1 := (List.dropWhile_sublist (l := (l.dropWhile pyIsSpace).reverse)
    (p := pyIsSpace)).mem h
  rw [List.mem_reverse] at h1
  exact (List.dropWhile_sublist (l := l) (p := pyIsSpace)).mem h1

theorem pySplitOn_sep_not_mem (sep : Char) (l : Str) :
    ∀ w ∈ pySplitOn sep l, sep ∉ w := by
  induction l with
  | nil =>
    intro w hw
    rcases List.mem_singleton.mp hw with rfl
    simp
  | cons c cs ih =>
    intro w hw
    unfold pySplitOn at hw
    by_cases hc : c = sep
    · rw [if_pos hc] at hw
      rcases List.mem_cons.mp hw with rfl | h
      · simp
      · exact ih w h
    · rw [if_neg hc] at hw
      cases hrec : pySplitOn sep cs with
      | nil =>
        rw [hrec] at hw
        rcases List.mem_singleton.mp hw with rfl
        intro hmem
        rcases List.mem_singleton.mp hmem with rfl
        exact hc rfl
      | cons w0 ws =>
        rw [hrec] at hw
        rcases List.mem_cons.mp hw with rfl | h
        · intro hmem
          rcases List.mem_cons.mp hmem with rfl | hmem'
          · exact hc rfl
          · exact ih w0 (by rw [hrec]; exact List.mem_cons_self _ _) hmem'
        · exact ih w (by rw [hrec]; exact List.mem_cons_of_mem _ h)

theorem pyInt_nonneg (s : Str) (hs : '-' ∉ s) (x : ℤ) (h : pyInt s = .ok x) :
    0 ≤ x := by
  cases ht : pyStrip s with
  | nil => simp [pyInt, ht] at h
  | cons c rest =>
    have hcm : c ≠ '-' := by
      intro hc
      exact hs (mem_pyStrip s '-' (by rw [ht, ← hc]; exact List.mem_cons_self _ _))
    by_cases hplus : c = '+'
    · cases hd : digitsVal rest with
      | none => simp [pyInt, ht, hplus, hd] at h
      | some v =>
        have hvx : (v : ℤ) = x := by simpa [pyInt, ht, hplus, hd] using h
        rw [← hvx]; positivity
    · cases hd : digitsVal (c :: rest) with
      | none => simp [pyInt, ht, hplus, hcm, hd] at h
      | some v =>
        have hvx : (v : ℤ) = x := by simpa [pyInt, ht, hplus, hcm, hd] using h
        rw [← hvx]; positivity

theorem parseToken_nonneg (t : Str) (S : Finset ℤ)
    (h : parseToken t = .ok S) : ∀ x ∈ S, 0 ≤ x := by
  intro x hx
  by_cases hm : '-' ∈ t
  · cases hsplit : pySplitOn '-' t with
    | nil => simp [parseToken, hm, hsplit] at h
    | cons a ws =>
      cases ws with
      | nil => simp [parseToken, hm, hsplit] at h
      | cons b ws' =>
        cases ws' with
        | cons u us => simp [parseToken, hm, hsplit] at h
        | nil =>
          cases ha : pyInt a with
          | error e => simp [parseToken, hm, hsplit, ha] at h
          | ok xa =>
            cases hb : pyInt b with
            | error e => simp [parseToken, hm, hsplit, ha, hb] at h
            | ok xb =>
              have hS : Finset.Icc xa xb = S := by
                simpa [parseToken, hm, hsplit, ha, hb] using h
              have hna : '-' ∉ a :=
                pySplitOn_sep_not_mem '-' t a (by rw [hsplit]; exact List.mem_cons_self _ _)
              have h0a : 0 ≤ xa := pyInt_nonneg a hna xa ha
              rw [← hS] at hx
              exact le_trans h0a (Finset.mem_Icc.mp hx).1
  · cases hi : pyInt t with
    | error e => simp [parseToken, hm, hi] at h
    | ok xt =>
      have hS : ({xt} : Finset ℤ) = S := by simpa [parseToken, hm, hi] using h
      rw [← hS] at hx
      rcases Finset.mem_singleton.mp hx with rfl
      exact pyInt_nonneg t hm x hi

theorem parseParts_nonneg (parts : List Str) :
    ∀ (acc : Finset ℤ), (∀ x ∈ acc, (0:ℤ) ≤ x) →
      ∀ S, parseParts parts acc = .ok S → ∀ x ∈ S, 0 ≤ x := by
  induction parts with
  | nil =>
    intro acc hacc S h x hx
    have : acc = S := by simpa [parseParts] using h
    exact hacc x (this ▸ hx)
  | cons p ps ih =>
    intro acc hacc S h x hx
    cases htok : parseToken (pyStrip p) with
    | error e => simp [parseParts, htok] at h
    | ok s =>
      simp only [parseParts, htok] at h
      refine ih (acc ∪ s) ?_ S h x hx
      intro y hy
      rcases Finset.mem_union.mp hy with hy | hy
      · exact hacc y hy
      · exact parseToken_nonneg (pyStrip p) s htok y hy

/-- C4 counterexample: the input `"0"` is accepted and parses to `{0}`,
but `0` is not a positive integer, refuting the claim that every parsed
value is positive. -/
theorem c4_counterexample :
    parse_page_ranges (some (chars "0")) = .ok ({0} : Finset ℤ) ∧
    (0 : ℤ) ∈ ({0} : Finset ℤ) ∧ ¬(0 < (0 : ℤ)) := by
  refine ⟨by decide, by decide, by decide⟩

/-- C4 (amended): every integer in a set returned by `parse_page_ranges`
is a nonnegative integer (the parser accepts `0`, so positivity fails,
but no negative value can be produced), and a dashed token `a-b`
contributes exactly the integers `k` with `a ≤ k ≤ b`, inclusive on both
ends. -/
theorem c4_parse_values_nonneg_and_ranges (s : Str) (S : Finset ℤ)
    (h : parse_page_ranges (some s) = .ok S) :
    (∀ x ∈ S, 0 ≤ x) ∧
    (∀ (t u v : Str) (x y : ℤ), t.contains '-' = true → pySplitOn '-' t = [u, v] →
      pyInt u = .ok x → pyInt v = .ok y →
      parseToken t = .ok (Finset.Icc x y) ∧ ∀ k : ℤ, k ∈ Finset.Icc x y ↔ x ≤ k ∧ k ≤ y) := by
  constructor
  · intro x hx
    by_cases hse : s.isEmpty
    · have : (∅ : Finset ℤ) = S := by simpa [parse_page_ranges, hse] using h
      rw [← this] at hx
      simp at hx
    · have h' : parseParts (pySplitOn ',' s) ∅ = .ok S := by
        simpa [parse_page_ranges, hse] using h
      exact parseParts_nonneg (pySplitOn ',' s) ∅ (by simp) S h' x hx
  · intro t u v x y hc hsplit hu hv
    have hm : '-' ∈ t := by simpa using hc
    refine ⟨?_, fun k => Finset.mem_Icc⟩
    simp [parseToken, hm, hsplit, hu, hv]

/-- Witness for C4's amended theorem at the concrete input `"1-3,5"`,
which parses to `{1, 2, 3, 5}`: the element 5 is nonnegative and the
dashed token `1-3` contributes exactly `Icc 1 3`. -/
theorem c4_witness :
    (0 : ℤ) ≤ 5 ∧ parseToken (chars "1-3") = .ok (Finset.Icc 1 3) := by
  have hmain := c4_parse_values_nonneg_and_ranges (chars "1-3,5")
    ({1, 2, 3, 5} : Finset ℤ) (by decide)
  refine ⟨hmain.1 5 (by decide), ?_⟩
  exact (hmain.2 (chars "1-3") (chars "1") (chars "3") 1 3
    (by decide) (by decide) (by decide) (by decide)).1

theorem badToken_parseToken (t : Str) (h : badToken t = true) :
    parseToken t = .error .valueError := by
  by_cases hm : '-' ∈ t
  · cases hsplit : pySplitOn '-' t with
    | nil => simp [parseToken, hm, hsplit]
    | cons a ws =>
      cases ws with
      | nil => simp [parseToken, hm, hsplit]
      | cons b ws' =>
        cases ws' with
        | cons u us => simp [parseToken, hm, hsplit]
        | nil =>
          cases ha : pyInt a with
          | error e => cases e; simp [parseToken, hm, hsplit, ha]
          | ok xa =>
            cases hb : pyInt b with
            | error e => cases e; simp [parseToken, hm, hsplit, ha, hb]
            | ok xb => simp [badToken, hm, hsplit, ha, hb] at h
  · cases hi : pyInt t with
    | error e => cases e; simp [parseToken, hm, hi]
    | ok xt => simp [badToken, hm, hi] at h

theorem parseParts_error_of_bad (parts : List Str) :
    ∀ (acc : Finset ℤ) (p : Str), p ∈ parts → badToken (pyStrip p) = true →
      ∃ e, parseParts parts acc = .error e := by
  induction parts with
  | nil => intro acc p hp; simp at hp
  | cons q ps ih =>
    intro acc p hp hbad
    cases htok : parseToken (pyStrip q) with
    | error e => exact ⟨e, by simp [parseParts, htok]⟩
    | ok s =>
      rcases List.mem_cons.mp hp with rfl | hp'
      · rw [badToken_parseToken _ hbad] at htok
        exact absurd htok (by simp)
      · obtain ⟨e, he⟩ := ih (acc ∪ s) p hp' hbad
        exact ⟨e, by simp [parseParts, htok, he]⟩

/-- C8: `parse_page_ranges` returns the empty set for absent (`None`)
and for empty input, and any non-empty input one of whose comma-split
tokens is malformed (non-numeric, missing dash bound, or a dash token
that does not unpack into two pieces) fails with a parse error rather
than returning a set. -/
theorem c8_parse_empty_and_malformed :
    parse_page_ranges none = .ok ∅ ∧
    parse_page_ranges (some []) = .ok ∅ ∧
    ∀ s : Str, s ≠ [] → ∀ p ∈ pySplitOn ',' s, badToken (pyStrip p) = true →
      ∃ e, parse_page_ranges (some s) = .error e := by
  refine ⟨rfl, rfl, ?_⟩
  intro s hs p hp hbad
  obtain ⟨e, he⟩ := parseParts_error_of_bad (pySplitOn ',' s) ∅ p hp hbad
  refine ⟨e, ?_⟩
  simpa [parse_page_ranges, List.isEmpty_iff, hs] using he

/-- Witness for C8 at the concrete input `"1,x"`, whose second token
`"x"` is non-numeric: parsing fails with an error. -/
theorem c8_witness :
    ∃ e, parse_page_ranges (some (chars "1,x")) = .error e :=
  c8_parse_empty_and_malformed.2.2 (chars "1,x") (by decide)
    (chars "x") (by decide) (by decide)

/-- C2: when the double-column set `D` parsed from the command line is
non-empty and not contained in the extraction set `P`, `main` exits with
code 1, printing the four diagnostic lines that list the offending page
numbers (the elements of `D` not in `P`, in sorted order), and never
reaches the conversion (no output is produced). -/
theorem c2_double_column_subset_validation
    (pagesArg ds : Str) (pages : List Page) (pdfName : Str) (meta : Meta)
    (P D : Finset ℤ)
    (hP : parse_page_ranges (some pagesArg) = .ok P)
    (hds : ds ≠ [])
    (hD : parse_page_ranges (some ds) = .ok D)
    (hDne : D ≠ ∅)
    (hsub : ¬ D ⊆ P) :
    ConvertPdfExtract.main true pagesArg (some ds) pages pdfName meta =
      .exited 1
        [chars "Error: --double-column-pages contains pages not in --pages: " ++
           pyIntListRepr (sortedList (D \ P)),
         chars "  Pages to extract: " ++ pyIntListRepr (sortedList P),
         chars "  Double-column pages: " ++ pyIntListRepr (sortedList D),
         chars "  Invalid pages: " ++ pyIntListRepr (sortedList (D \ P))] ∧
    (∀ md, ConvertPdfExtract.main true pagesArg (some ds) pages pdfName meta ≠
      MainResult.converted md) ∧
    (∀ k : ℤ, k ∈ sortedList (D \ P) ↔ k ∈ D ∧ k ∉ P) ∧
    List.Sorted (· ≤ ·) (sortedList (D \ P)) := by
  have hdse : ds.isEmpty = false := by simpa [List.isEmpty_iff] using hds
  have hdiff : D \ P ≠ ∅ := by
    intro habs
    exact hsub (Finset.sdiff_eq_empty_iff_subset.mp habs)
  have h1 : ConvertPdfExtract.main true pagesArg (some ds) pages pdfName meta =
      .exited 1
        [chars "Error: --double-column-pages contains pages not in --pages: " ++
           pyIntListRepr (sortedList (D \ P)),
         chars "  Pages to extract: " ++ pyIntListRepr (sortedList P),
         chars "  Double-column pages: " ++ pyIntListRepr (sortedList D),
         chars "  Invalid pages: " ++ pyIntListRepr (sortedList (D \ P))] := by
    simp [ConvertPdfExtract.main, hP, hdse, hD, hDne, hdiff]
  refine ⟨h1, ?_, ?_, Finset.sort_sorted _ _⟩
  · intro md hmd
    rw [h1] at hmd
    exact absurd hmd (by simp)
  · intro k
    rw [show sortedList (D \ P) = (D \ P).sort (· ≤ ·) from rfl]
    rw [Finset.mem_sort]
    exact Finset.mem_sdiff

/-- Witness for C2 at the concrete invocation `--pages 1-3
--double-column-pages 4,2`: the program exits with code 1 and the error
lines list the invalid page 4. -/
theorem c2_witness :
    ConvertPdfExtract.main true (chars "1-3") (some (chars "4,2")) []
        (chars "p.pdf") ⟨[], [], [], []⟩ =
      .exited 1
        [chars "Error: --double-column-pages contains pages not in --pages: " ++
           pyIntListRepr (sortedList (({4, 2} : Finset ℤ) \ ({1, 2, 3} : Finset ℤ))),
         chars "  Pages to extract: " ++ pyIntListRepr (sortedList ({1, 2, 3} : Finset ℤ)),
         chars "  Double-column pages: " ++ pyIntListRepr (sortedList ({4, 2} : Finset ℤ)),
         chars "  Invalid pages: " ++
           pyIntListRepr (sortedList (({4, 2} : Finset ℤ) \ ({1, 2, 3} : Finset ℤ)))] :=
  (c2_double_column_subset_validation (chars "1-3") (chars "4,2") []
    (chars "p.pdf") ⟨[], [], [], []⟩ ({1, 2, 3} : Finset ℤ) ({4, 2} : Finset ℤ)
    (by decide) (by decide) (by decide) (by decide) (by decide)).1

/-! ### Lemmas about the page-content extractor -/

theorem processLines_words (lines : List Str) :
    ∀ w ∈ processLines lines, w ≠ [] ∧
      (∀ c, w.head? = some c → pyIsSpace c = false) ∧
      (∀ c, w.getLast? = some c → pyIsSpace c = false) := by
  intro w hw
  rw [processLines, List.mem_filterMap] at hw
  obtain ⟨il, hmem, hf⟩ := hw
  dsimp only at hf
  split at hf
  · exact absurd hf (by simp)
  · split at hf
    · exact absurd hf (by simp)
    · split at hf
      · exact absurd hf (by simp)
      · rename_i hguard
        obtain rfl : clean_text il.2 = w := Option.some.inj hf
        refine ⟨by simpa [List.isEmpty_iff] using hguard,
          clean_text_head?_nonspace il.2, clean_text_getLast?_nonspace il.2⟩

theorem proseContent_head?_nonspace (t : Str) :
    ∀ c, (proseContent t).head? = some c → pyIsSpace c = false := by
  intro c hc
  unfold proseContent at hc
  cases hp : processLines (pySplitOn '\n' t) with
  | nil => rw [hp] at hc; simp [pyJoin] at hc
  | cons w ws =>
    rw [hp] at hc
    rw [pyJoin_head? (chars "\n\n") w ws
      (processLines_words _ w (by rw [hp]; exact List.mem_cons_self _ _)).1] at hc
    exact (processLines_words _ w (by rw [hp]; exact List.mem_cons_self _ _)).2.1 c hc

theorem proseContent_getLast?_nonspace (t : Str) :
    ∀ c, (proseContent t).getLast? = some c → pyIsSpace c = false := by
  intro c hc
  unfold proseContent at hc
  cases hp : processLines (pySplitOn '\n' t) with
  | nil => rw [hp] at hc; simp [pyJoin] at hc
  | cons w ws =>
    rw [hp] at hc
    obtain ⟨u, hu, hlast⟩ := pyJoin_getLast? (chars "\n\n") (w :: ws)
      (fun v hv => (processLines_words _ v (by rw [hp]; exact hv)).1) (by simp)
    rw [hlast] at hc
    exact (processLines_words _ u (by rw [hp]; exact hu)).2.2 c hc

theorem extract_column_text_head?_nonspace (ot : Option Str) :
    ∀ c, (extract_column_text ot).head? = some c → pyIsSpace c = false := by
  intro c hc
  cases ot with
  | none => simp [extract_column_text] at hc
  | some t =>
    by_cases hte : t.isEmpty
    · simp [extract_column_text, hte] at hc
    · rw [extract_column_text, if_neg hte] at hc
      exact proseContent_head?_nonspace t c hc

theorem extract_column_text_getLast?_nonspace (ot : Option Str) :
    ∀ c, (extract_column_text ot).getLast? = some c → pyIsSpace c = false := by
  intro c hc
  cases ot with
  | none => simp [extract_column_text] at hc
  | some t =>
    by_cases hte : t.isEmpty
    · simp [extract_column_text, hte] at hc
    · rw [extract_column_text, if_neg hte] at hc
      exact proseContent_getLast?_nonspace t c hc

/-- C3: in double-column mode, when both half-page extractions yield
non-empty cleaned text `L` and `R`, the page content is exactly
`L ++ "\n\n" ++ R` — left first, with exactly one blank-line separator
(the last character of `L` and the first of `R` are non-whitespace, so
no further blank space adjoins the separator); when exactly one half is
non-empty, that half's content is returned alone. -/
theorem c3_double_column_combine (page : Page) (n : ℕ) (lt rt : Option Str)
    (hl : page.leftText = .ok lt) (hr : page.rightText = .ok rt) :
    (extract_column_text lt ≠ [] → extract_column_text rt ≠ [] →
      extract_page_content page n true =
        .ok (extract_column_text lt ++ chars "\n\n" ++ extract_column_text rt)) ∧
    (extract_column_text lt ≠ [] → extract_column_text rt = [] →
      extract_page_content page n true = .ok (extract_column_text lt)) ∧
    (extract_column_text lt = [] → extract_column_text rt ≠ [] →
      extract_page_content page n true = .ok (extract_column_text rt)) ∧
    (∀ c, (extract_column_text lt).getLast? = some c → pyIsSpace c = false) ∧
    (∀ c, (extract_column_text rt).head? = some c → pyIsSpace c = false) := by
  refine ⟨?_, ?_, ?_, extract_column_text_getLast?_nonspace lt,
    extract_column_text_head?_nonspace rt⟩
  · intro h1 h2
    have e1 : (extract_column_text lt).isEmpty = false := by
      simpa [List.isEmpty_iff] using h1
    have e2 : (extract_column_text rt).isEmpty = false := by
      simpa [List.isEmpty_iff] using h2
    simp [extract_page_content, hl, hr, e1, e2]
  · intro h1 h2
    have e1 : (extract_column_text lt).isEmpty = false := by
      simpa [List.isEmpty_iff] using h1
    have e2 : (extract_column_text rt).isEmpty = true := by
      simpa [List.isEmpty_iff] using h2
    simp [extract_page_content, hl, hr, e1, e2]
  · intro h1 h2
    have e1 : (extract_column_text lt).isEmpty = true := by
      simpa [List.isEmpty_iff] using h1
    have e2 : (extract_column_text rt).isEmpty = false := by
      simpa [List.isEmpty_iff] using h2
    simp [extract_page_content, hl, hr, e1, e2, List.isEmpty_iff.mp e1]

/-- Witness for C3 on a concrete page whose two halves extract to
`"left col"` and `"right col"`: the result is the left content, one
blank line, then the right content. -/
theorem c3_witness :
    extract_page_content
        ⟨.ok none, .ok (some (chars "left col")), .ok (some (chars "right col")), .ok []⟩
        1 true =
      .ok (extract_column_text (some (chars "left col")) ++ chars "\n\n" ++
        extract_column_text (some (chars "right col"))) :=
  (c3_double_column_combine
    ⟨.ok none, .ok (some (chars "left col")), .ok (some (chars "right col")), .ok []⟩
    1 (some (chars "left col")) (some (chars "right col")) rfl rfl).1
    (by decide) (by decide)

/-- C7: in single-column mode, the detected tables are rendered after
the prose content (the result is exactly prose followed by the table
block, never interleaved); each non-empty table's block uses its first
row as the header row followed by a separator row with one `---` cell
per header cell (a 2-column table yields exactly `|---|---|`), the
remaining rows as body, and missing (`None`) cells render as the empty
string. -/
theorem c7_single_column_tables (page : Page) (n : ℕ) (t : Str) (ts : List PdfTable)
    (ht : page.text = .ok (some t)) (hne : t ≠ [])
    (hts : page.tables = .ok ts) (htsne : ts ≠ []) :
    extract_page_content page n false = .ok (proseContent t ++ tablesBlock ts) ∧
    (∀ (j : ℕ) (hd : List (Option Str)) (tl : List (List (Option Str))),
      renderTable j (hd :: tl) =
        chars "**Table " ++ natChars (j + 1) ++ chars ":**\n\n" ++
          renderRow hd ++ sepRow hd.length ++ (tl.map renderRow).flatten ++ chars "\n") ∧
    sepRow 2 = chars "|---|---|\n" ∧
    renderCellStr none = [] ∧
    renderRow [none, some (chars "d")] = chars "|  | d |\n" := by
  refine ⟨?_, ?_, by decide, rfl, by decide⟩
  · have hte : t.isEmpty = false := by simpa [List.isEmpty_iff] using hne
    have htse : ts.isEmpty = false := by simpa [List.isEmpty_iff] using htsne
    simp [extract_page_content, ht, hte, hts, htse]
  · intro j hd tl
    simp [renderTable]

/-- Witness for C7 on a concrete page with prose `"Hello"` and one
2-row-by-2-column table containing a missing cell. -/
theorem c7_witness :
    extract_page_content
        ⟨.ok (some (chars "Hello")), .ok none, .ok none,
          .ok [[[some (chars "a"), some (chars "b")], [none, some (chars "d")]]]⟩
        1 false =
      .ok (proseContent (chars "Hello") ++
        tablesBlock [[[some (chars "a"), some (chars "b")], [none, some (chars "d")]]]) :=
  (c7_single_column_tables
    ⟨.ok (some (chars "Hello")), .ok none, .ok none,
      .ok [[[some (chars "a"), some (chars "b")], [none, some (chars "d")]]]⟩
    1 (chars "Hello") [[[some (chars "a"), some (chars "b")], [none, some (chars "d")]]]
    rfl (by decide) rfl (by decide)).1

/-- C9: calling the converter with `pages_to_extract` equal to the empty
set behaves identically to passing `None` — the whole output document is
the same (every page is processed), and the metadata header reports the
full page count, not `0 pages`. -/
theorem c9_empty_set_behaves_like_none (pages : List Page) (pdfName : Str)
    (meta : Meta) (dcp : Option (Finset ℤ)) :
    convert_pdf_to_markdown pages pdfName meta (some ∅) dcp =
      convert_pdf_to_markdown pages pdfName meta none dcp ∧
    pageInfo (some ∅) pages.length = natChars pages.length ++ chars " pages" := by
  constructor
  · simp [convert_pdf_to_markdown, markdown_parts, headerBlock, pageInfo,
      pteTruthy, skipPage]
  · simp [pageInfo, pteTruthy]

/-! ### Lemmas about the page-marker predicate -/

theorem isPageComment_nil : isPageComment [] = false := by decide

theorem not_marker_of_head_nonspace (c : Str)
    (h : ∀ hd, c.head? = some hd → pyIsSpace hd = false) :
    isPageComment c = false := by
  cases c with
  | nil => decide
  | cons d ds =>
    have hd := h d rfl
    have hdn : d ≠ '\n' := by
      intro hdn
      rw [hdn] at hd
      exact absurd hd (by decide)
    rw [isPageComment]
    rw [show chars "\n\n<!-- Page " = '\n' :: chars "\n<!-- Page " from rfl]
    show (('\n' == d) && ((chars "\n<!-- Page ").isPrefixOf ds)) = false
    rw [show ('\n' == d) = false from beq_eq_false_iff_ne.mpr (Ne.symm hdn)]
    simp

theorem not_marker_of_cons₂ (d : Char) (z : Str) (hd : d ≠ '\n') :
    isPageComment ('\n' :: d :: z) = false := by
  rw [isPageComment]
  rw [show chars "\n\n<!-- Page " = '\n' :: '\n' :: chars "<!-- Page " from rfl]
  show (('\n' == '\n') && (('\n' :: chars "<!-- Page ").isPrefixOf (d :: z))) = false
  rw [show (('\n' :: chars "<!-- Page ").isPrefixOf (d :: z)) =
      (('\n' == d) && ((chars "<!-- Page ").isPrefixOf z)) from rfl]
  rw [show ('\n' == d) = false from beq_eq_false_iff_ne.mpr (Ne.symm hd)]
  simp

theorem not_marker_of_cons₃ (d : Char) (z : Str) (hd : d ≠ '<') :
    isPageComment ('\n' :: '\n' :: d :: z) = false := by
  rw [isPageComment]
  rw [show chars "\n\n<!-- Page " = '\n' :: '\n' :: '<' :: chars "!-- Page " from rfl]
  show (('\n' == '\n') && (('\n' :: '<' :: chars "!-- Page ").isPrefixOf ('\n' :: d :: z))) = false
  rw [show (('\n' :: '<' :: chars "!-- Page ").isPrefixOf ('\n' :: d :: z)) =
      (('\n' == '\n') && (('<' :: chars "!-- Page ").isPrefixOf (d :: z))) from rfl]
  rw [show (('<' :: chars "!-- Page ").isPrefixOf (d :: z)) =
      (('<' == d) && ((chars "!-- Page ").isPrefixOf z)) from rfl]
  rw [show ('<' == d) = false from beq_eq_false_iff_ne.mpr (Ne.symm hd)]
  simp

theorem not_marker_append_nn (x : Str)
    (hx : ∀ d, x.head? = some d → d ≠ '<') :
    isPageComment (chars "\n\n" ++ x) = false := by
  cases x with
  | nil => decide
  | cons d z =>
    have hd := hx d rfl
    show isPageComment ('\n' :: '\n' :: d :: z) = false
    exact not_marker_of_cons₃ d z hd

theorem renderTable_head? (j : ℕ) (tb : PdfTable) :
    (renderTable j tb).head? = some '*' := rfl

theorem not_marker_placeholder (z : Str) :
    isPageComment (chars "\n<!-- Page " ++ z) = false := by
  show isPageComment ('\n' :: '<' :: (chars "!-- Page " ++ z)) = false
  exact not_marker_of_cons₂ '<' _ (by decide)

theorem proseContent_not_marker (t : Str) : isPageComment (proseContent t) = false :=
  not_marker_of_head_nonspace _ (proseContent_head?_nonspace t)

theorem tablesBlock_not_marker (ts : List PdfTable) :
    isPageComment (tablesBlock ts) = false := by
  rw [tablesBlock]
  apply not_marker_append_nn
  intro d hd
  cases ts with
  | nil => simp at hd
  | cons t₀ ts' =>
    rw [show (t₀ :: ts').enum = (0, t₀) :: List.enumFrom 1 ts' from rfl] at hd
    rw [List.map_cons, List.flatten_cons] at hd
    rw [List.head?_append_of_ne_nil _ (by
      intro habs
      have := congrArg List.head? habs
      rw [renderTable_head?] at this
      simp at this)] at hd
    rw [renderTable_head?] at hd
    rcases Option.some.inj hd with rfl
    decide

theorem content_not_marker (page : Page) (i : ℕ) (dc : Bool) (c : Str)
    (h : extract_page_content page i dc = .ok c) : isPageComment c = false := by
  cases dc with
  | true =>
    cases hl : page.leftText with
    | error e => simp [extract_page_content, hl] at h
    | ok lt =>
      cases hr : page.rightText with
      | error e => simp [extract_page_content, hl, hr] at h
      | ok rt =>
        by_cases hL : (extract_column_text lt).isEmpty
        · by_cases hR : (extract_column_text rt).isEmpty
          · have hc : chars "\n<!-- Page " ++ natChars i ++ chars ": No text extracted -->\n" = c := by
              simpa [extract_page_content, hl, hr, hL, hR] using h
            rw [← hc, List.append_assoc]
            exact not_marker_placeholder _
          · have hc : extract_column_text rt = c := by
              simpa [extract_page_content, hl, hr, hL, hR, List.isEmpty_iff.mp hL] using h
            rw [← hc]
            exact not_marker_of_head_nonspace _ (extract_column_text_head?_nonspace rt)
        · by_cases hR : (extract_column_text rt).isEmpty
          · have hc : extract_column_text lt = c := by
              simpa [extract_page_content, hl, hr, hL, hR] using h
            rw [← hc]
            exact not_marker_of_head_nonspace _ (extract_column_text_head?_nonspace lt)
          · have hc : extract_column_text lt ++ chars "\n\n" ++ extract_column_text rt = c := by
              simpa [extract_page_content, hl, hr, hL, hR] using h
            rw [← hc]
            apply not_marker_of_head_nonspace
            intro hd hhd
            rw [List.append_assoc, List.head?_append_of_ne_nil _
              (by simpa [List.isEmpty_iff] using hL)] at hhd
            exact extract_column_text_head?_nonspace lt hd hhd
  | false =>
    cases ht : page.text with
    | error e => simp [extract_page_content, ht] at h
    | ok ot =>
      cases ot with
      | none =>
        have hc : chars "\n<!-- Page " ++ natChars i ++ chars ": No text extracted -->\n" = c := by
          simpa [extract_page_content, ht] using h
        rw [← hc, List.append_assoc]
        exact not_marker_placeholder _
      | some t =>
        by_cases hte : t.isEmpty
        · have hc : chars "\n<!-- Page " ++ natChars i ++ chars ": No text extracted -->\n" = c := by
            simpa [extract_page_content, ht, hte] using h
          rw [← hc, List.append_assoc]
          exact not_marker_placeholder _
        · cases hts : page.tables with
          | error e => simp [extract_page_content, ht, hte, hts] at h
          | ok ts =>
            by_cases htse : ts.isEmpty
            · have hc : proseContent t = c := by
                simpa [extract_page_content, ht, hte, hts, htse] using h
              rw [← hc]
              exact proseContent_not_marker t
            · have hc : proseContent t ++ tablesBlock ts = c := by
                simpa [extract_page_content, ht, hte, hts, htse] using h
              rw [← hc]
              cases hpc : proseContent t with
              | nil =>
                rw [List.nil_append]
                exact tablesBlock_not_marker ts
              | cons d ds =>
                apply not_marker_of_head_nonspace
                intro hd hhd
                rw [List.head?_append_of_ne_nil _ (by simp)] at hhd
                rw [← hpc] at hhd
                exact proseContent_head?_nonspace t hd hhd

theorem isPrefixOf_append_self (a b : Str) : a.isPrefixOf (a ++ b) = true := by
  induction a with
  | nil => simp
  | cons c cs ih =>
    show ((c == c) && cs.isPrefixOf (cs ++ b)) = true
    simp [ih]

theorem marker_prefix (rest : Str) :
    isPageComment (chars "\n\n<!-- Page " ++ rest) = true := by
  rw [isPageComment]
  exact isPrefixOf_append_self _ _

theorem headerBlock_not_marker (meta : Meta) (pdfName : Str)
    (pte : Option (Finset ℤ)) (total : ℕ) :
    isPageComment (headerBlock meta pdfName pte total) = false := by
  apply not_marker_of_head_nonspace
  intro hd h
  rw [show (headerBlock meta pdfName pte total).head? = some '#' from rfl] at h
  rcases Option.some.inj h.symm with rfl
  decide

theorem pageParts_eq (dcp : Finset ℤ) (i : ℕ) (page : Page) :
    pageParts dcp i page =
      match extract_page_content page i (decide ((i : ℤ) ∈ dcp)) with
      | .ok c =>
        [chars "\n\n<!-- Page " ++ natChars i ++
          (if decide ((i : ℤ) ∈ dcp) then chars " (double-column)" else []) ++
          chars " -->\n\n", c]
      | .error e =>
        [chars "\n\n<!-- Page " ++ natChars i ++ chars ": Error - " ++ e ++
          chars " -->\n\n"] := rfl

theorem pageParts_countP (dcp : Finset ℤ) (i : ℕ) (page : Page) :
    (pageParts dcp i page).countP isPageComment = 1 := by
  rw [pageParts_eq]
  cases hx : extract_page_content page i (decide ((i : ℤ) ∈ dcp)) with
  | ok c =>
    have hm : isPageComment
        (chars "\n\n<!-- Page " ++ natChars i ++
          (if decide ((i : ℤ) ∈ dcp) then chars " (double-column)" else []) ++
          chars " -->\n\n") = true := by
      rw [List.append_assoc, List.append_assoc]
      exact marker_prefix _
    have hc : isPageComment c = false := content_not_marker page i _ c hx
    rw [List.countP_cons, List.countP_cons, List.countP_nil, hm, hc]
    decide
  | error e =>
    have hm : isPageComment
        (chars "\n\n<!-- Page " ++ natChars i ++ chars ": Error - " ++ e ++
          chars " -->\n\n") = true := by
      simp only [List.append_assoc]
      exact marker_prefix _
    rw [List.countP_cons, List.countP_nil, hm]
    decide

theorem range'_pairwise_lt : ∀ s n : ℕ, List.Pairwise (· < ·) (List.range' s n) := by
  intro s n
  induction n generalizing s with
  | zero => simp
  | succ m ih =>
    rw [List.range'_succ]
    refine List.Pairwise.cons ?_ (ih (s + 1))
    intro x hx
    have := (List.mem_range'_1.mp hx).1
    omega

theorem skipPage_none (i : ℕ) : skipPage none i = false := rfl

/-- C1: with `pages_to_extract = None` the assembler processes every
page of the PDF, in ascending page-number order `1, 2, …, n` (the parts
list is the header followed by the page groups indexed by
`range' 1 n`, whose indices are strictly increasing), each processed
page contributes exactly one page-marker comment, and the total number
of page-marker comments equals the PDF's page count. -/
theorem c1_none_processes_all_pages_in_order (pages : List Page) (pdfName : Str)
    (meta : Meta) (dcp : Option (Finset ℤ)) :
    markdown_parts pages pdfName meta none dcp =
      headerBlock meta pdfName none pages.length ::
        (((List.range' 1 pages.length).zip pages).map
          (fun ip => pageParts (dcp.getD ∅) ip.1 ip.2)).flatten ∧
    List.Pairwise (· < ·) (List.range' 1 pages.length) ∧
    (∀ ip ∈ (List.range' 1 pages.length).zip pages,
      (pageParts (dcp.getD ∅) ip.1 ip.2).countP isPageComment = 1) ∧
    (markdown_parts pages pdfName meta none dcp).countP isPageComment =
      pages.length := by
  have h1 : markdown_parts pages pdfName meta none dcp =
      headerBlock meta pdfName none pages.length ::
        (((List.range' 1 pages.length).zip pages).map
          (fun ip => pageParts (dcp.getD ∅) ip.1 ip.2)).flatten := by
    rw [markdown_parts, ← List.enumFrom_eq_zip_range']
    congr 1
  refine ⟨h1, range'_pairwise_lt 1 pages.length,
    fun ip _ => pageParts_countP (dcp.getD ∅) ip.1 ip.2, ?_⟩
  rw [h1, List.countP_cons, headerBlock_not_marker, List.countP_flatten]
  have hmap : (((List.range' 1 pages.length).zip pages).map
        (fun ip => pageParts (dcp.getD ∅) ip.1 ip.2)).map (List.countP isPageComment) =
      ((List.range' 1 pages.length).zip pages).map (fun _ => 1) := by
    rw [List.map_map]
    exact List.map_congr_left (fun ip _ => pageParts_countP (dcp.getD ∅) ip.1 ip.2)
  rw [hmap, List.map_const', List.sum_replicate, smul_eq_mul, mul_one]
  rw [List.length_zip, List.length_range', Nat.min_self]
  simp

/-- Witness for C1: a concrete one-page PDF contributes exactly one
page-marker comment. -/
theorem c1_witness :
    (pageParts ∅ 1 ⟨.ok (some (chars "Hi")), .ok none, .ok none, .ok []⟩).countP
      isPageComment = 1 :=
  (c1_none_processes_all_pages_in_order
    [⟨.ok (some (chars "Hi")), .ok none, .ok none, .ok []⟩] (chars "p.pdf")
    ⟨[], [], [], []⟩ none).2.2.1
    (1, ⟨.ok (some (chars "Hi")), .ok none, .ok none, .ok []⟩)
    (List.mem_singleton.mpr rfl)

theorem enumFrom_append' {α : Type} (n : ℕ) (xs ys : List α) :
    List.enumFrom n (xs ++ ys) =
      List.enumFrom n xs ++ List.enumFrom (n + xs.length) ys := by
  induction xs generalizing n with
  | nil => simp
  | cons x xs ih =>
    simp only [List.cons_append, List.enumFrom_cons, ih (n + 1), List.length_cons]
    congr 3
    omega

/-- C6: a page with no extractable text yields exactly the one
no-text placeholder comment (noting the page number) and no paragraph
content; a page whose extraction raises an error contributes exactly one
error placeholder comment carrying the error description; and the
assembler continues past such a page — the document parts for the pages
after it are still produced. -/
theorem c6_error_and_empty_placeholders (xs ys : List Page) (p q : Page) (e : Str)
    (i : ℕ) (pdfName : Str) (meta : Meta)
    (hp : p.text = .error e) (hq : q.text = .ok none) :
    extract_page_content q i false =
      .ok (chars "\n<!-- Page " ++ natChars i ++ chars ": No text extracted -->\n") ∧
    extract_page_content p i false = .error e ∧
    pageParts ∅ i p =
      [chars "\n\n<!-- Page " ++ natChars i ++ chars ": Error - " ++ e ++
        chars " -->\n\n"] ∧
    markdown_parts (xs ++ p :: ys) pdfName meta none none =
      headerBlock meta pdfName none (xs ++ p :: ys).length ::
        (((List.enumFrom 1 xs).map (fun ip => pageParts ∅ ip.1 ip.2)).flatten ++
          (pageParts ∅ (xs.length + 1) p ++
            ((List.enumFrom (xs.length + 2) ys).map
              (fun ip => pageParts ∅ ip.1 ip.2)).flatten)) := by
  have h2 : extract_page_content p i false = .error e := by
    simp [extract_page_content, hp]
  refine ⟨by simp [extract_page_content, hq], h2, by simp [pageParts_eq, h2], ?_⟩
  rw [markdown_parts]
  simp only [skipPage_none, Bool.false_eq_true, if_false, Option.getD_none]
  rw [enumFrom_append', List.map_append, List.flatten_append]
  rw [show (1 : ℕ) + xs.length = xs.length + 1 from Nat.add_comm 1 xs.length]
  rw [List.enumFrom_cons, List.map_cons, List.flatten_cons]

/-- Witness for C6: a concrete two-page document whose first page raises
`"boom"` records the error placeholder for page 1. -/
theorem c6_witness :
    pageParts ∅ 1 ⟨.error (chars "boom"), .ok none, .ok none, .ok []⟩ =
      [chars "\n\n<!-- Page " ++ natChars 1 ++ chars ": Error - " ++ chars "boom" ++
        chars " -->\n\n"] :=
  (c6_error_and_empty_placeholders []
    [⟨.ok (some (chars "Hi")), .ok none, .ok none, .ok []⟩]
    ⟨.error (chars "boom"), .ok none, .ok none, .ok []⟩
    ⟨.ok none, .ok none, .ok none, .ok []⟩ (chars "boom") 1
    (chars "p.pdf") ⟨[], [], [], []⟩ rfl rfl).2.2.1
